import Mathlib

/-!
Verification development for the SProto module registry.

The definitions below are a shallow embedding, translated from the Go
sources, of the publication/retrieval core of the registry:

* `crypto/sha256` + `encoding/hex` as used by the publish handler
  (`sha256Hex`);
* the `Masterminds/semver/v3` parsing, canonical printing and precedence
  comparison that `internal/api/handlers.go` relies on (`parseVersion`,
  `vString`, `compareVersion`);
* `sortVersionsDesc` from `internal/api/handlers.go`;
* the key validation of the local-filesystem blob store from
  `internal/storage` (`getFullPath`, modelling `filepath.Clean`,
  `filepath.IsAbs` and `filepath.Join` on Unix);
* the publish / fetch / list handlers over an explicit registry state
  (relational rows plus a key-addressed blob map).

Machine integers are modelled as `Nat` with explicit `% 2 ^ 32`
(respectively explicit 64-bit bounds) where the Go code relies on fixed
width.  Stateful handler code is modelled by explicit state passing.
-/

namespace SProto

/-! ## SHA-256 (crypto/sha256) over byte lists

Bytes are `Nat`s; word arithmetic is `Nat` arithmetic reduced mod `2^32`.
-/

def pow32 : Nat := 4294967296

def add32 (a b : Nat) : Nat := (a + b) % pow32

/-- Rotate a 32-bit word right by `n` (the word is assumed `< 2^32`). -/
def rotr32 (n x : Nat) : Nat := ((x >>> n) ||| ((x <<< (32 - n)) % pow32)) % pow32

def sigma0 (x : Nat) : Nat := (rotr32 7 x) ^^^ (rotr32 18 x) ^^^ (x >>> 3)

def sigma1 (x : Nat) : Nat := (rotr32 17 x) ^^^ (rotr32 19 x) ^^^ (x >>> 10)

def bigSigma0 (x : Nat) : Nat := (rotr32 2 x) ^^^ (rotr32 13 x) ^^^ (rotr32 22 x)

def bigSigma1 (x : Nat) : Nat := (rotr32 6 x) ^^^ (rotr32 11 x) ^^^ (rotr32 25 x)

def chFn (x y z : Nat) : Nat := (x &&& y) ^^^ ((x ^^^ 4294967295) &&& z)

def majFn (x y z : Nat) : Nat := (x &&& y) ^^^ (x &&& z) ^^^ (y &&& z)

def sha256K : List Nat :=
  [1116352408, 1899447441, 3049323471, 3921009573, 961987163,
   1508970993, 2453635748, 2870763221, 3624381080, 310598401,
   607225278, 1426881987, 1925078388, 2162078206, 2614888103,
   3248222580, 3835390401, 4022224774, 264347078, 604807628,
   770255983, 1249150122, 1555081692, 1996064986, 2554220882,
   2821834349, 2952996808, 3210313671, 3336571891, 3584528711,
   113926993, 338241895, 666307205, 773529912, 1294757372,
   1396182291, 1695183700, 1986661051, 2177026350, 2456956037,
   2730485921, 2820302411, 3259730800, 3345764771, 3516065817,
   3600352804, 4094571909, 275423344, 430227734, 506948616,
   659060556, 883997877, 958139571, 1322822218, 1537002063,
   1747873779, 1955562222, 2024104815, 2227730452, 2361852424,
   2428436474, 2756734187, 3204031479, 3329325298]
def sha256H0 : List Nat :=
  [1779033703, 3144134277, 1013904242, 2773480762, 1359893119,
   2600822924, 528734635, 1541459225]
/-- Pad a byte message per SHA-256: append 0x80, zero bytes, then the
bit length as 8 big-endian bytes, so the total length is a multiple of 64. -/
def padMessage (msg : List Nat) : List Nat :=
  let len := msg.length
  let zeros := (119 - (len % 64)) % 64
  let bitLen := len * 8
  msg ++ [128] ++ List.replicate zeros 0 ++
    [56, 48, 40, 32, 24, 16, 8, 0].map (fun k => (bitLen >>> k) % 256)

/-- Group bytes into big-endian 32-bit words. -/
def toWords : List Nat → List Nat
  | a :: b :: c :: d :: rest =>
      (((a % 256) <<< 24) + ((b % 256) <<< 16) + ((c % 256) <<< 8) + (d % 256)) :: toWords rest
  | _ => []

/-- Split a word list into 16-word blocks; `fuel` bounds the recursion
structurally (call with `fuel = ws.length` or more). -/
def toBlocksFuel : Nat → List Nat → List (List Nat)
  | 0, _ => []
  | _, [] => []
  | fuel + 1, ws => ws.take 16 :: toBlocksFuel fuel (ws.drop 16)

def toBlocks (ws : List Nat) : List (List Nat) := toBlocksFuel ws.length ws

/-- Extend a 16-word block to the 64-word message schedule. -/
def extendW (w16 : List Nat) : List Nat :=
  (List.range 48).foldl
    (fun w _ =>
      w ++ [add32 (add32 (sigma1 (w.getD (w.length - 2) 0)) (w.getD (w.length - 7) 0))
             (add32 (sigma0 (w.getD (w.length - 15) 0)) (w.getD (w.length - 16) 0))])
    w16

/-- One SHA-256 compression round over the 8-word state. -/
def sha256Round (w : List Nat) (s : List Nat) (i : Nat) : List Nat :=
  match s with
  | [a, b, c, d, e, f, g, h] =>
    let t1 := add32 h (add32 (bigSigma1 e)
                (add32 (chFn e f g) (add32 (sha256K.getD i 0) (w.getD i 0))))
    let t2 := add32 (bigSigma0 a) (majFn a b c)
    [add32 t1 t2, a, b, c, add32 d t1, e, f, g]
  | s => s

def compressBlock (h : List Nat) (block : List Nat) : List Nat :=
  let w := extendW block
  let final := (List.range 64).foldl (sha256Round w) h
  (h.zip final).map (fun p => add32 p.1 p.2)

/-- SHA-256 digest of a byte list, as 32 bytes. -/
def sha256Bytes (msg : List Nat) : List Nat :=
  let hs := (toBlocks (toWords (padMessage msg))).foldl compressBlock sha256H0
  (hs.map (fun w => [(w >>> 24) % 256, (w >>> 16) % 256, (w >>> 8) % 256, w % 256])).flatten

/-! ## encoding/hex (lowercase) -/

def hexDigit (n : Nat) : Char := if n < 10 then Char.ofNat (48 + n) else Char.ofNat (87 + n)

def hexByte (b : Nat) : List Char := [hexDigit ((b / 16) % 16), hexDigit (b % 16)]

/-- Embeds `hex.EncodeToString(sha256.Sum(msg))` — the lowercase-hex SHA-256 digest. -/
def sha256Hex (msg : List Nat) : String := String.mk ((sha256Bytes msg).map hexByte).flatten

set_option maxRecDepth 100000



/-! ## Semantic versions (Masterminds/semver/v3 as used by the handlers)

`parseVersion` embeds `semver.NewVersion` (the lenient, regex-based
parser: optional leading "v", one to three dot-separated numeric
segments that must fit in a `uint64`, optional `-prerelease` and
`+metadata` made of nonempty `[0-9A-Za-z-]` identifiers).  `vString`
embeds `Version.String()` (canonical form, no leading "v").
`compareVersion` embeds `Version.Compare`.
-/

structure SemVer where
  major : Nat
  minor : Nat
  patch : Nat
  pre : List String
  metadata : List String
deriving DecidableEq, Repr

def isDigitChar (c : Char) : Bool := ('0' ≤ c) && (c ≤ '9')

def isIdentChar (c : Char) : Bool :=
  isDigitChar c || (('a' ≤ c) && (c ≤ 'z')) || (('A' ≤ c) && (c ≤ 'Z')) || c = '-'

def digitsVal (ds : List Char) : Nat := ds.foldl (fun a c => a * 10 + (c.toNat - 48)) 0

/-- Parse a leading run of digits as a `uint64` (as `strconv.ParseUint`
with bit size 64 does; larger values are a parse error). -/
def parseNumSeg (cs : List Char) : Option (Nat × List Char) :=
  let ds := cs.takeWhile isDigitChar
  if ds.isEmpty then none
  else
    let n := digitsVal ds
    if n < 18446744073709551616 then some (n, cs.dropWhile isDigitChar) else none

/-- An optional `.` followed by a numeric segment (a missing segment is 0). -/
def parseOptDotNum (cs : List Char) : Option (Nat × List Char) :=
  match cs with
  | '.' :: rest => parseNumSeg rest
  | _ => some (0, cs)

/-- Split a character list on a separator (like `strings.Split`). -/
def splitListOn (sep : Char) (cs : List Char) : List (List Char) :=
  cs.foldr
    (fun c acc =>
      match acc with
      | g :: gs => if c = sep then [] :: g :: gs else (c :: g) :: gs
      | [] => [[c]])
    [[]]

/-- Dot-separated prerelease/metadata identifiers: each nonempty, over
`[0-9A-Za-z-]`. -/
def identsOf (cs : List Char) : Option (List String) :=
  let parts := splitListOn '.' cs
  if parts.all (fun p => !p.isEmpty && p.all isIdentChar) then
    some (parts.map (fun p => String.mk p))
  else none

/-- Embeds `semver.NewVersion`. -/
def parseVersion (s : String) : Option SemVer := do
  let cs0 := s.toList
  let cs := match cs0 with
    | 'v' :: rest => rest
    | _ => cs0
  let (maj, r1) ← parseNumSeg cs
  let (mnr, r2) ← parseOptDotNum r1
  let (pat, r3) ← parseOptDotNum r2
  match r3 with
  | [] => pure ⟨maj, mnr, pat, [], []⟩
  | '-' :: rest =>
      let preCs := rest.takeWhile (fun c => c ≠ '+')
      let rem := rest.dropWhile (fun c => c ≠ '+')
      let pre ← identsOf preCs
      match rem with
      | [] => pure ⟨maj, mnr, pat, pre, []⟩
      | '+' :: mrest => do
          let md ← identsOf mrest
          pure ⟨maj, mnr, pat, pre, md⟩
      | _ => none
  | '+' :: mrest => do
      let md ← identsOf mrest
      pure ⟨maj, mnr, pat, [], md⟩
  | _ => none

def dotJoin : List String → String
  | [] => ""
  | [s] => s
  | s :: rest => s ++ "." ++ dotJoin rest

/-- Embeds `Version.String()`: canonical `major.minor.patch[-pre][+metadata]`. -/
def vString (v : SemVer) : String :=
  Nat.repr v.major ++ "." ++ Nat.repr v.minor ++ "." ++ Nat.repr v.patch ++
    (if v.pre = [] then "" else "-" ++ dotJoin v.pre) ++
    (if v.metadata = [] then "" else "+" ++ dotJoin v.metadata)

/-- The handlers re-add the "v" prefix: `versionStr = "v" + semVer.String()`. -/
def normVersion (v : SemVer) : String := "v" ++ vString v

def cmpNat (a b : Nat) : Ordering := if a < b then .lt else if b < a then .gt else .eq

/-- A prerelease identifier as `strconv.ParseInt(s, 10, 64)` sees it: an
optional leading sign followed by at least one digit, with the value in
the `int64` range.  In particular a sign-prefixed identifier such as
"-1" is numeric — and negative — to the library, unlike under standard
semantic-version precedence, where any identifier containing a hyphen
is alphanumeric. -/
def parseNumId (s : String) : Option Int :=
  match s.toList with
  | [] => none
  | '-' :: ds =>
      if ds ≠ [] ∧ ds.all isDigitChar ∧ digitsVal ds ≤ 9223372036854775808 then
        some (-(digitsVal ds : Int))
      else none
  | '+' :: ds =>
      if ds ≠ [] ∧ ds.all isDigitChar ∧ digitsVal ds ≤ 9223372036854775807 then
        some (digitsVal ds : Int)
      else none
  | ds =>
      if ds.all isDigitChar ∧ digitsVal ds ≤ 9223372036854775807 then
        some (digitsVal ds : Int)
      else none

/-- Embeds `comparePrePart` from Masterminds/semver: identifiers that
`strconv.ParseInt` accepts (sign included) compare numerically as
`int64` values and sort below the remaining, alphanumeric ones;
alphanumerics compare as strings; a missing (empty) part sorts below a
present one. -/
def comparePrePart (s o : String) : Ordering :=
  if s = o then .eq
  else if s = "" then (if o = "" then .gt else .lt)
  else if o = "" then .gt
  else
    match parseNumId s, parseNumId o with
    | some si, some oi => if oi < si then .gt else .lt
    | some _, none => .lt
    | none, some _ => .gt
    | none, none => if o < s then .gt else .lt

/-- Compare the remaining parts of the second prerelease when the first
is exhausted (each part compares against the empty string). -/
def cmpPreEmpty : List String → Ordering
  | [] => .eq
  | o :: os => match comparePrePart "" o with | .eq => cmpPreEmpty os | d => d

/-- Compare the remaining parts of the first prerelease when the second
is exhausted. -/
def cmpPreEmptyR : List String → Ordering
  | [] => .eq
  | s :: ss => match comparePrePart s "" with | .eq => cmpPreEmptyR ss | d => d

/-- Embeds `comparePrerelease`: dot-separated parts compared pairwise, the
shorter side padded with empty parts. -/
def comparePreList : List String → List String → Ordering
  | [], os => cmpPreEmpty os
  | s :: ss, [] => cmpPreEmptyR (s :: ss)
  | s :: ss, o :: os =>
      match comparePrePart s o with
      | .eq => comparePreList ss os
      | d => d

/-- Embeds `Version.Compare`: major, minor, patch numerically; then a release
(no prerelease) sorts above any prerelease; then prerelease parts.
Build metadata is never examined. -/
def compareVersion (v o : SemVer) : Ordering :=
  match cmpNat v.major o.major with
  | .eq =>
    match cmpNat v.minor o.minor with
    | .eq =>
      match cmpNat v.patch o.patch with
      | .eq =>
        match v.pre, o.pre with
        | [], [] => .eq
        | [], _ :: _ => .gt
        | _ :: _, [] => .lt
        | s :: ss, t :: ts => comparePreList (s :: ss) (t :: ts)
      | d => d
    | d => d
  | d => d

/-- Descending comparator used by `sort.Sort(sort.Reverse(Collection))`:
keep `a` before `b` when `a` is not strictly below `b`. -/
def versionGeB (a b : SemVer) : Bool := decide (compareVersion a b ≠ Ordering.lt)

/-- Insertion sort placing `a` before the first element `b` with
`le a b = true`. -/
def insertBy (le : α → α → Bool) (a : α) : List α → List α
  | [] => [a]
  | b :: bs => if le a b then a :: b :: bs else b :: insertBy le a bs

def insertionSort (le : α → α → Bool) (l : List α) : List α := l.foldr (insertBy le) []

/-- Write the sorted strings over the prefix of the original slice,
leaving the remaining positions untouched (the Go helper assigns
`versions[i]` only for `i < len(semvers)` and never shrinks the slice). -/
def overwritePrefix : List String → List String → List String
  | orig, [] => orig
  | [], _ => []
  | _ :: orig, r :: rs => r :: overwritePrefix orig rs

/-- Embeds `sortVersionsDesc` from `internal/api/handlers.go`: parse each entry
(dropping parse failures from the collection that gets sorted), sort
descending by precedence, then overwrite the original slice in place. -/
def sortVersionsDesc (versions : List String) : List String :=
  let semvers := versions.filterMap parseVersion
  let sorted := insertionSort versionGeB semvers
  overwritePrefix versions (sorted.map normVersion)

/-! ### Standard semantic-version precedence, from the words of the spec

The spec says versions are ordered "per standard semantic-version
precedence rules" (SemVer 2.0 item 11).  The following definitions
follow those words — not the library code — and exist only to compare
the behaviour of the code against them: an identifier consisting solely
of digits is numeric and compares numerically; identifiers with letters
or hyphens compare lexically in ASCII order; numeric identifiers always
rank below alphanumeric ones; with equal prefixes the shorter
prerelease ranks lower; a release ranks above any prerelease; build
metadata is ignored.
-/

def specNumId (s : String) : Option Nat :=
  match s.toList with
  | [] => none
  | ds => if ds.all isDigitChar then some (digitsVal ds) else none

def specComparePrePart (s o : String) : Ordering :=
  match specNumId s, specNumId o with
  | some si, some oi => cmpNat si oi
  | some _, none => .lt
  | none, some _ => .gt
  | none, none => if s < o then .lt else if o < s then .gt else .eq

def specComparePreList : List String → List String → Ordering
  | [], [] => .eq
  | [], _ :: _ => .lt
  | _ :: _, [] => .gt
  | s :: ss, o :: os =>
      match specComparePrePart s o with
      | .eq => specComparePreList ss os
      | d => d

def specCompareVersion (v o : SemVer) : Ordering :=
  match cmpNat v.major o.major with
  | .eq =>
    match cmpNat v.minor o.minor with
    | .eq =>
      match cmpNat v.patch o.patch with
      | .eq =>
        match v.pre, o.pre with
        | [], [] => .eq
        | [], _ :: _ => .gt
        | _ :: _, [] => .lt
        | s :: ss, t :: ts => specComparePreList (s :: ss) (t :: ts)
      | d => d
    | d => d
  | d => d




/-! ## Local-filesystem blob store key validation (internal/storage)

`cleanPath` embeds the Go function `path/filepath.Clean` (Unix separators),
`getFullPath` embeds `LocalStorage.getFullPath`, and the four
`*FileLocal` operations model `UploadFile` / `DownloadFile` /
`DeleteFile` / `FileExists` over an explicit file map.  The `MkdirAll`
side effects in `getFullPath` do not affect the returned path and
carry no observable state here.
-/

def dotSeg : List Char := ['.']

def dotDotSeg : List Char := ['.', '.']

/-- The element-processing loop of `filepath.Clean`: drop empty and `.`
segments; `..` pops a previous segment, is dropped at the root, and is
kept at the start of a relative path. -/
def cleanSegs (rooted : Bool) (segs : List (List Char)) : List (List Char) :=
  segs.foldl
    (fun out seg =>
      if seg = [] ∨ seg = dotSeg then out
      else if seg = dotDotSeg then
        if out ≠ [] ∧ out.getLast? ≠ some dotDotSeg then out.dropLast
        else if rooted then out
        else out ++ [dotDotSeg]
      else out ++ [seg])
    []

def joinSegs : List (List Char) → List Char
  | [] => []
  | [s] => s
  | s :: rest => s ++ '/' :: joinSegs rest

def cleanChars (cs : List Char) : List Char :=
  match cs with
  | [] => dotSeg
  | c :: rest =>
    let rooted := c = '/'
    let out := cleanSegs rooted (splitListOn '/' (c :: rest))
    match out with
    | [] => if rooted then ['/'] else dotSeg
    | _ => (if rooted then ['/'] else []) ++ joinSegs out

/-- Embeds `filepath.Clean` on Unix. -/
def cleanPath (p : String) : String := String.mk (cleanChars p.toList)

/-- Embeds `filepath.IsAbs` on Unix. -/
def isAbsPath (p : String) : Bool :=
  match p.toList with
  | '/' :: _ => true
  | _ => false

/-- Embeds `filepath.Join(a, b)` on Unix for nonempty arguments. -/
def joinPath (a b : String) : String := cleanPath (a ++ "/" ++ b)

def invalidObjectNameMsg (objectName : String) : String :=
  "invalid object name: " ++ objectName

def absoluteObjectNameMsg (objectName : String) : String :=
  "object name cannot be an absolute path: " ++ objectName

/-- Embeds `LocalStorage.getFullPath`: clean the object name, reject `.` / `/` /
empty and absolute results, then join with the base path. -/
def getFullPath (basePath objectName : String) : Except String String :=
  let cleanObjectName := cleanPath objectName
  if cleanObjectName = "." ∨ cleanObjectName = "/" ∨ cleanObjectName = "" then
    Except.error (invalidObjectNameMsg objectName)
  else if isAbsPath cleanObjectName then
    Except.error (absoluteObjectNameMsg objectName)
  else
    Except.ok (joinPath basePath cleanObjectName)

/-- The local filesystem as a map from absolute paths to file contents. -/
structure FSState where
  files : List (String × List Nat)
deriving DecidableEq, Repr

def fsWrite (fs : FSState) (p : String) (bytes : List Nat) : FSState :=
  ⟨(p, bytes) :: fs.files.filter (fun kv => kv.1 ≠ p)⟩

def fsRead (fs : FSState) (p : String) : Option (List Nat) :=
  (fs.files.find? (fun kv => kv.1 == p)).map (fun kv => kv.2)

/-- Embeds `LocalStorage.UploadFile` (os.Create + io.Copy). -/
def uploadFileLocal (basePath objectName : String) (bytes : List Nat)
    (fs : FSState) : Except String FSState :=
  match getFullPath basePath objectName with
  | Except.error e => Except.error e
  | Except.ok p => Except.ok (fsWrite fs p bytes)

/-- Embeds `LocalStorage.DownloadFile`. -/
def downloadFileLocal (basePath objectName : String) (fs : FSState) :
    Except String (List Nat) :=
  match getFullPath basePath objectName with
  | Except.error e => Except.error e
  | Except.ok p =>
    match fsRead fs p with
    | none => Except.error ("object " ++ objectName ++ " not found locally")
    | some bytes => Except.ok bytes

/-- Embeds `LocalStorage.DeleteFile` (idempotent delete). -/
def deleteFileLocal (basePath objectName : String) (fs : FSState) :
    Except String FSState :=
  match getFullPath basePath objectName with
  | Except.error e => Except.error e
  | Except.ok p => Except.ok ⟨fs.files.filter (fun kv => kv.1 ≠ p)⟩

/-- Embeds `LocalStorage.FileExists`. -/
def fileExistsLocal (basePath objectName : String) (fs : FSState) :
    Except String Bool :=
  match getFullPath basePath objectName with
  | Except.error e => Except.error e
  | Except.ok p => Except.ok (fsRead fs p).isSome

/-- Predicate: `p` lies under directory `base` (proper prefix with a separator). -/
def underBase (base p : String) : Bool :=
  (base ++ "/").toList.isPrefixOf p.toList


/-! ## Registry state and handlers (internal/api/handlers.go)

The relational store is a list of module rows and module-version rows;
the blob store is a key-addressed byte map; `clock` is a monotone
counter standing in for both wall-clock timestamps (`created_at`,
`updated_at`) and fresh module ids, so each publish gets a strictly
larger creation stamp.  The metadata transaction is modelled by
returning the original relational rows on every error path (rollback);
blob writes are outside the transaction, exactly as in the handler.

`publish` takes an extra oracle `insertFails : Bool` standing for a
failure of the `tx.Create(&moduleVersion)` insert after the blob
upload (e.g. the (module_id, version) uniqueness constraint firing
against a row committed by a concurrent publish after the fast-path
pre-check).  Interpolated data is kept in the error messages, but the
single-quote decorations of the Go format strings are elided.
-/

structure ModuleRow where
  id : Nat
  ns : String
  name : String
  createdAt : Nat
  updatedAt : Nat
deriving DecidableEq, Repr

structure ModuleVersionRow where
  moduleId : Nat
  version : String
  artifactDigest : String
  artifactStorageKey : String
  createdAt : Nat
deriving DecidableEq, Repr

structure RegistryState where
  modules : List ModuleRow
  versions : List ModuleVersionRow
  blobs : List (String × List Nat)
  clock : Nat
deriving DecidableEq, Repr

def emptyState : RegistryState := ⟨[], [], [], 0⟩

/-- A publish request: path parameters, the multipart `artifact` file
(`none` models a missing file field), and the extra bytes of multipart
framing, so the request body is never smaller than the artifact. -/
structure PublishRequest where
  ns : String
  name : String
  version : String
  artifact : Option (List Nat)
  bodyOverhead : Nat
deriving DecidableEq, Repr

structure PublishResponse where
  ns : String
  name : String
  version : String
  artifactDigest : String
  createdAt : Nat
deriving DecidableEq, Repr

/-- Handler outcome: HTTP 201 with a body, or an HTTP error status with
a message. -/
inductive Outcome where
  | success (resp : PublishResponse)
  | failure (status : Nat) (msg : String)
deriving DecidableEq, Repr

def maxBodyBytes : Nat := 33554432

def artifactLen (req : PublishRequest) : Nat :=
  match req.artifact with
  | some bs => bs.length
  | none => 0

def bodyLen (req : PublishRequest) : Nat := req.bodyOverhead + artifactLen req

def requiredParamsMsg : String := "Namespace, module name, and version are required"

def invalidVersionMsg : String := "Invalid semantic version format"

def tooLargeMsg : String := "Artifact file size exceeds limit (32MB)"

def missingArtifactMsg : String := "Missing artifact file in form data"

def insertErrorMsg : String := "Database error saving module version"

def conflictMsg (ns name versionStr : String) : String :=
  "version " ++ versionStr ++ " already exists for module " ++ ns ++ "/" ++ name

def moduleNotFoundMsg : String := "Module not found"

def versionNotFoundMsg : String := "Module version not found"

def artifactNotFoundMsg : String := "Artifact not found in storage"

def invalidVersionPrefixMsg : String := "Invalid version format: must start with v"

def findModule (modules : List ModuleRow) (ns name : String) : Option ModuleRow :=
  modules.find? (fun m => m.ns == ns && m.name == name)

def findVersionRow (rows : List ModuleVersionRow) (mid : Nat) (version : String) :
    Option ModuleVersionRow :=
  rows.find? (fun r => r.moduleId == mid && r.version == version)

def rowsFor (rows : List ModuleVersionRow) (mid : Nat) : List ModuleVersionRow :=
  rows.filter (fun r => r.moduleId == mid)

/-- GORM `FirstOrCreate`: the existing row, or a fresh one whose id and
timestamps come from the clock. -/
def resolvedModule (st : RegistryState) (ns name : String) : ModuleRow :=
  match findModule st.modules ns name with
  | some m => m
  | none => ⟨st.clock, ns, name, st.clock, st.clock⟩

/-- The best-effort `updated_at` bump on the parent module. -/
def bumpUpdated (modules : List ModuleRow) (mid t : Nat) : List ModuleRow :=
  modules.map (fun m => if m.id == mid then ⟨m.id, m.ns, m.name, m.createdAt, t⟩ else m)

/-- Embeds `fmt.Sprintf("modules/%s/%s/protos.zip", module.ID, versionStr)` —
the module id printed in place of the UUID string. -/
def storageKeyFor (mid : Nat) (versionStr : String) : String :=
  "modules/" ++ Nat.repr mid ++ "/" ++ versionStr ++ "/protos.zip"

/-- Store a blob (`PutObject` / `UploadFile` overwrite semantics). -/
def putBlob (blobs : List (String × List Nat)) (k : String) (v : List Nat) :
    List (String × List Nat) :=
  (k, v) :: blobs.filter (fun kv => kv.1 ≠ k)

def lookupBlob (blobs : List (String × List Nat)) (k : String) : Option (List Nat) :=
  (blobs.find? (fun kv => kv.1 == k)).map (fun kv => kv.2)

/-- Embeds `PublishModuleVersionHandler`.  Steps, in handler order: required
path params; semver parse + "v"-normalization; 32 MiB body cap
(`http.MaxBytesReader` + `ParseMultipartForm`); the `artifact` form
file; `FirstOrCreate` of the module; fast-path version pre-check
(409); blob upload keyed by `storageKeyFor` while the tee reader feeds
the SHA-256 accumulator; the `ModuleVersion` insert (500 on failure,
transaction rolled back, blob kept — the code has no compensating
delete); best-effort `updated_at` bump; commit. -/
def publish (st : RegistryState) (req : PublishRequest) (insertFails : Bool) :
    Outcome × RegistryState :=
  if req.ns = "" ∨ req.name = "" ∨ req.version = "" then
    (.failure 400 requiredParamsMsg, st)
  else
    match parseVersion req.version with
    | none => (.failure 400 invalidVersionMsg, st)
    | some sv =>
      if maxBodyBytes < bodyLen req then
        (.failure 413 tooLargeMsg, st)
      else
        match req.artifact with
        | none => (.failure 400 missingArtifactMsg, st)
        | some bytes =>
          let m := resolvedModule st req.ns req.name
          match findVersionRow st.versions m.id (normVersion sv) with
          | some _ => (.failure 409 (conflictMsg req.ns req.name (normVersion sv)), st)
          | none =>
            let key := storageKeyFor m.id (normVersion sv)
            let blobs2 := putBlob st.blobs key bytes
            let digest := sha256Hex bytes
            if insertFails then
              (.failure 500 insertErrorMsg, { st with blobs := blobs2 })
            else
              let row : ModuleVersionRow := ⟨m.id, normVersion sv, digest, key, st.clock⟩
              let mods2 :=
                match findModule st.modules req.ns req.name with
                | some _ => bumpUpdated st.modules m.id st.clock
                | none => st.modules ++ [m]
              (.success ⟨req.ns, req.name, normVersion sv, "sha256:" ++ digest, st.clock⟩,
               ⟨mods2, st.versions ++ [row], blobs2, st.clock + 1⟩)

/-- Embeds `FetchModuleVersionArtifactHandler`: required params, "v"-prefix
check, metadata lookup joining modules and module_versions, then the
blob read at the stored key. -/
def fetchArtifact (st : RegistryState) (ns name version : String) :
    Except (Nat × String) (List Nat) :=
  if ns = "" ∨ name = "" ∨ version = "" then
    Except.error (400, requiredParamsMsg)
  else
    match version.toList with
    | 'v' :: _ =>
      match findModule st.modules ns name with
      | none => Except.error (404, versionNotFoundMsg)
      | some m =>
        match findVersionRow st.versions m.id version with
        | none => Except.error (404, versionNotFoundMsg)
        | some row =>
          match lookupBlob st.blobs row.artifactStorageKey with
          | none => Except.error (404, artifactNotFoundMsg)
          | some bytes => Except.ok bytes
    | _ => Except.error (400, invalidVersionPrefixMsg)

/-- Rows ordered by `created_at DESC` (the `Order("created_at DESC")`
pluck, and the `ROW_NUMBER() OVER (ORDER BY created_at DESC)` window). -/
def orderByCreatedDesc (rows : List ModuleVersionRow) : List ModuleVersionRow :=
  insertionSort (fun a b => decide (b.createdAt ≤ a.createdAt)) rows

/-- Embeds `ListModuleVersionsHandler`: find the module, pluck its version
strings newest-created first, then `sortVersionsDesc`. -/
def listVersions (st : RegistryState) (ns name : String) :
    Except (Nat × String) (List String) :=
  if ns = "" ∨ name = "" then Except.error (400, requiredParamsMsg)
  else
    match findModule st.modules ns name with
    | none => Except.error (404, moduleNotFoundMsg)
    | some m =>
      Except.ok (sortVersionsDesc ((orderByCreatedDesc (rowsFor st.versions m.id)).map
        (fun r => r.version)))

structure ModuleInfo where
  ns : String
  name : String
  latestVersion : String
deriving DecidableEq, Repr

/-- The version of the `rn = 1` row of the `LatestVersions` window
(most recently created), or `COALESCE`d to the empty string. -/
def latestCreated (rows : List ModuleVersionRow) : String :=
  match orderByCreatedDesc rows with
  | [] => ""
  | r :: _ => r.version

/-- Modules ordered by `ORDER BY namespace, name`. -/
def orderByNsName (modules : List ModuleRow) : List ModuleRow :=
  insertionSort
    (fun a b => decide (a.ns < b.ns ∨ (a.ns = b.ns ∧ a.name ≤ b.name))) modules

/-- Embeds `ListModulesHandler`: one entry per module with the most recently
created version string. -/
def listModules (st : RegistryState) : List ModuleInfo :=
  (orderByNsName st.modules).map
    (fun m => ⟨m.ns, m.name, latestCreated (rowsFor st.versions m.id)⟩)

/-! Concrete fixtures used by witnesses and counterexamples. -/

def reqAbc : PublishRequest := ⟨"acme", "protos", "v1.0.0", some [97, 98, 99], 0⟩

def pubReq (v : String) : PublishRequest := ⟨"acme", "protos", v, some [], 0⟩

/-- State after publishing v1.0.0, v2.0.0, v1.5.0 in that order. -/
def listState3 : RegistryState :=
  (publish (publish (publish emptyState (pubReq "v1.0.0") false).2
    (pubReq "v2.0.0") false).2 (pubReq "v1.5.0") false).2

/-- State after publishing v2.0.0 and then v0.1.0. -/
def creationOrderState : RegistryState :=
  (publish (publish emptyState (pubReq "v2.0.0") false).2 (pubReq "v0.1.0") false).2

/-- The response body of a successful publish. -/
def publishedResponse (st : RegistryState) (req : PublishRequest) (sv : SemVer)
    (bytes : List Nat) : PublishResponse :=
  ⟨req.ns, req.name, normVersion sv, "sha256:" ++ sha256Hex bytes, st.clock⟩

/-- The registry state after a successful publish. -/
def publishedState (st : RegistryState) (req : PublishRequest) (sv : SemVer)
    (bytes : List Nat) : RegistryState :=
  ⟨(match findModule st.modules req.ns req.name with
    | some _ => bumpUpdated st.modules (resolvedModule st req.ns req.name).id st.clock
    | none => st.modules ++ [resolvedModule st req.ns req.name]),
   st.versions ++ [⟨(resolvedModule st req.ns req.name).id, normVersion sv,
     sha256Hex bytes,
     storageKeyFor (resolvedModule st req.ns req.name).id (normVersion sv), st.clock⟩],
   putBlob st.blobs (storageKeyFor (resolvedModule st req.ns req.name).id
     (normVersion sv)) bytes,
   st.clock + 1⟩

def reqBig : PublishRequest :=
  ⟨"acme", "protos", "v1.0.0", some (List.replicate 33554433 0), 0⟩




/-! ## Sanity checks against known vectors and the worked examples -/

/-- Sanity: FIPS 180-2 test vector for the empty message. -/
theorem sha256Hex_empty :
    sha256Hex [] = "e3b0c44298fc1c149afbf4c8996fb92427ae41e4649b934ca495991b7852b855" := by
  rfl

/-- Sanity: FIPS 180-2 test vector for the message "abc". -/
theorem sha256Hex_abc :
    sha256Hex [97, 98, 99] =
      "ba7816bf8f01cfea414140de5dae2223b00361a396177a9cb410ff61f20015ad" := by
  rfl

/-- Sanity: parsing strips a leading "v" and canonicalizes. -/
theorem parseVersion_example :
    parseVersion "v1.2.3-alpha.1+build5" = some ⟨1, 2, 3, ["alpha", "1"], ["build5"]⟩ := by
  rfl

/-- Sanity: the worked example from the specification. -/
theorem sortVersionsDesc_example :
    sortVersionsDesc ["v1.0.0", "v2.0.0", "v1.5.0"] = ["v2.0.0", "v1.5.0", "v1.0.0"] := by
  rfl


/-! ## Comparator lemmas -/

theorem cmpNat_eq {a b : Nat} (h : cmpNat a b = Ordering.eq) : a = b := by
  unfold cmpNat at h
  split_ifs at h
  omega

theorem cmpNat_self (a : Nat) : cmpNat a a = Ordering.eq := by
  unfold cmpNat
  simp

theorem cmpNat_gt {a b : Nat} (h : cmpNat a b = Ordering.gt) :
    cmpNat b a = Ordering.lt := by
  unfold cmpNat at h ⊢
  split_ifs at h with h1 h2
  rw [if_pos h2]

theorem prePart_eq {s o : String} (h : comparePrePart s o = Ordering.eq) : s = o := by
  by_cases hso : s = o
  · exact hso
  exfalso
  unfold comparePrePart at h
  rw [if_neg hso] at h
  by_cases hs : s = ""
  · rw [if_pos hs] at h
    by_cases ho : o = ""
    · exact hso (hs.trans ho.symm)
    · rw [if_neg ho] at h
      exact Ordering.noConfusion h
  rw [if_neg hs] at h
  by_cases ho : o = ""
  · rw [if_pos ho] at h
    exact Ordering.noConfusion h
  rw [if_neg ho] at h
  rcases hps : parseNumId s with _ | si <;> rcases hpo : parseNumId o with _ | oi <;>
      simp only [hps, hpo] at h <;>
    first
      | (split_ifs at h <;> exact Ordering.noConfusion h)
      | exact Ordering.noConfusion h

theorem prePart_empty_not_gt (o : String) : comparePrePart "" o ≠ Ordering.gt := by
  unfold comparePrePart
  by_cases h : ("" : String) = o
  · rw [if_pos h]
    exact fun hc => Ordering.noConfusion hc
  · rw [if_neg h, if_pos rfl, if_neg (fun hc => h hc.symm)]
    exact fun hc => Ordering.noConfusion hc

theorem prePart_gt {s o : String} (h : comparePrePart s o = Ordering.gt) :
    comparePrePart o s = Ordering.lt := by
  unfold comparePrePart at h ⊢
  by_cases hso : s = o
  · rw [if_pos hso] at h
    exact Ordering.noConfusion h
  rw [if_neg hso] at h
  rw [if_neg (Ne.symm hso)]
  by_cases hs : s = ""
  · rw [if_pos hs] at h
    by_cases ho : o = ""
    · exact absurd (hs.trans ho.symm) hso
    · rw [if_neg ho] at h
      exact Ordering.noConfusion h
  rw [if_neg hs] at h
  by_cases ho : o = ""
  · rw [if_pos ho, if_neg hs]
  · rw [if_neg ho] at h
    rw [if_neg ho, if_neg hs]
    rcases hps : parseNumId s with _ | si <;> rcases hpo : parseNumId o with _ | oi <;>
        simp only [hps, hpo] at h ⊢
    · split_ifs at h with hlt
      rw [if_neg (asymm hlt)]
    · exact Ordering.noConfusion h
    · split_ifs at h with hlt
      rw [if_neg (by omega : ¬ si < oi)]

theorem cmpPreEmpty_gt {l : List String} (h : cmpPreEmpty l = Ordering.gt) :
    cmpPreEmptyR l = Ordering.lt := by
  induction l with
  | nil => exact Ordering.noConfusion h
  | cons o os ih =>
    unfold cmpPreEmpty at h
    rcases hc : comparePrePart "" o with _ | _ | _ <;> rw [hc] at h
    · exact Ordering.noConfusion h
    · have ho : o = "" := (prePart_eq hc).symm
      subst ho
      unfold cmpPreEmptyR
      rw [hc]
      exact ih h
    · exact absurd hc (prePart_empty_not_gt o)

theorem cmpPreEmptyR_gt {l : List String} (h : cmpPreEmptyR l = Ordering.gt) :
    cmpPreEmpty l = Ordering.lt := by
  induction l with
  | nil => exact Ordering.noConfusion h
  | cons s ss ih =>
    unfold cmpPreEmptyR at h
    rcases hc : comparePrePart s "" with _ | _ | _ <;> rw [hc] at h
    · exact Ordering.noConfusion h
    · have hs : s = "" := prePart_eq hc
      subst hs
      unfold cmpPreEmpty
      rw [hc]
      exact ih h
    · unfold cmpPreEmpty
      rw [prePart_gt hc]

theorem preList_gt {ps os : List String} (h : comparePreList ps os = Ordering.gt) :
    comparePreList os ps = Ordering.lt := by
  induction ps generalizing os with
  | nil =>
    cases os with
    | nil => exact Ordering.noConfusion h
    | cons o os2 => exact cmpPreEmpty_gt h
  | cons s ss ih =>
    cases os with
    | nil => exact cmpPreEmptyR_gt h
    | cons o os2 =>
      unfold comparePreList at h ⊢
      rcases hc : comparePrePart s o with _ | _ | _ <;> rw [hc] at h
      · exact Ordering.noConfusion h
      · have hso : s = o := prePart_eq hc
        subst hso
        rw [hc]
        exact ih h
      · rw [prePart_gt hc]

theorem compareVersion_gt {v o : SemVer} (h : compareVersion v o = Ordering.gt) :
    compareVersion o v = Ordering.lt := by
  unfold compareVersion at h ⊢
  rcases hM : cmpNat v.major o.major with _ | _ | _ <;> rw [hM] at h
  · exact Ordering.noConfusion h
  · rw [cmpNat_eq hM, cmpNat_self]
    rcases hm : cmpNat v.minor o.minor with _ | _ | _ <;> rw [hm] at h
    · exact Ordering.noConfusion h
    · rw [cmpNat_eq hm, cmpNat_self]
      rcases hp : cmpNat v.patch o.patch with _ | _ | _ <;> rw [hp] at h
      · exact Ordering.noConfusion h
      · rw [cmpNat_eq hp, cmpNat_self]
        revert h
        rcases v.pre with _ | ⟨s, ss⟩ <;> rcases o.pre with _ | ⟨t, ts⟩ <;> intro h
        · exact Ordering.noConfusion h
        · rfl
        · exact Ordering.noConfusion h
        · exact preList_gt h
      · rw [cmpNat_gt hp]
    · rw [cmpNat_gt hm]
  · rw [cmpNat_gt hM]


/-! ## Sorting lemmas -/

theorem insertBy_perm (le : α → α → Bool) (a : α) (l : List α) :
    List.Perm (insertBy le a l) (a :: l) := by
  induction l with
  | nil => exact List.Perm.refl _
  | cons b bs ih =>
    unfold insertBy
    split
    · exact List.Perm.refl _
    · exact (ih.cons b).trans (List.Perm.swap a b bs)

theorem insertionSort_perm (le : α → α → Bool) (l : List α) :
    List.Perm (insertionSort le l) l := by
  induction l with
  | nil => exact List.Perm.refl _
  | cons a as ih => exact (insertBy_perm le a (insertionSort le as)).trans (ih.cons a)

theorem insertBy_head {le : α → α → Bool} {a x : α} {l xs : List α}
    (h : insertBy le a l = x :: xs) : x = a ∨ l.head? = some x := by
  cases l with
  | nil =>
    unfold insertBy at h
    injection h with h1 _
    exact Or.inl h1.symm
  | cons b bs =>
    unfold insertBy at h
    split at h
    · injection h with h1 _
      exact Or.inl h1.symm
    · injection h with h1 _
      rw [← h1]
      exact Or.inr rfl

theorem chain_insertBy (le R : α → α → Bool)
    (h1 : ∀ a b, le a b = true → R a b = true)
    (h2 : ∀ a b, le a b = false → R b a = true)
    (a : α) (l : List α) (hc : List.Chain' (fun x y => R x y = true) l) :
    List.Chain' (fun x y => R x y = true) (insertBy le a l) := by
  induction l with
  | nil => simp [insertBy]
  | cons b bs ih =>
    unfold insertBy
    by_cases hle : le a b = true
    · rw [if_pos hle]
      exact List.Chain'.cons (h1 _ _ hle) hc
    · rw [if_neg hle]
      have hf : le a b = false := by
        cases hab : le a b
        · rfl
        · exact absurd hab hle
      have htail := ih hc.tail
      cases hins : insertBy le a bs with
      | nil => exact List.chain'_singleton b
      | cons x xs =>
        rw [hins] at htail
        refine List.chain'_cons.mpr ⟨?_, htail⟩
        rcases insertBy_head hins with hxa | hhd
        · rw [hxa]
          exact h2 _ _ hf
        · cases bs with
          | nil => exact absurd hhd (by simp)
          | cons c cs =>
            have hx : c = x := by
              simpa using hhd
            rw [← hx]
            exact (List.chain'_cons.mp hc).1

theorem chain_insertionSort (le R : α → α → Bool)
    (h1 : ∀ a b, le a b = true → R a b = true)
    (h2 : ∀ a b, le a b = false → R b a = true)
    (l : List α) :
    List.Chain' (fun x y => R x y = true) (insertionSort le l) := by
  induction l with
  | nil => exact List.chain'_nil
  | cons a as ih => exact chain_insertBy le R h1 h2 a (insertionSort le as) ih

theorem chain_head_all (R : α → α → Bool)
    (htrans : ∀ a b c, R a b = true → R b c = true → R a c = true)
    {h : α} {t : List α}
    (hc : List.Chain' (fun x y => R x y = true) (h :: t)) :
    ∀ x ∈ t, R h x = true := by
  induction t generalizing h with
  | nil =>
    intro x hx
    cases hx
  | cons b bs ih =>
    intro x hx
    have hhb : R h b = true := (List.chain'_cons.mp hc).1
    rcases List.mem_cons.mp hx with hxb | hx2
    · rw [hxb]
      exact hhb
    · exact htrans h b x hhb (ih (List.chain'_cons.mp hc).2 x hx2)

/-! ## List helper lemmas -/

theorem find?_append_none {p : α → Bool} {l1 l2 : List α} (h : l1.find? p = none) :
    (l1 ++ l2).find? p = l2.find? p := by
  induction l1 with
  | nil => rfl
  | cons a l ih =>
    rw [List.cons_append]
    simp only [List.find?] at h ⊢
    cases hpa : p a
    · rw [hpa] at h
      exact ih h
    · rw [hpa] at h
      exact Option.noConfusion h

theorem find?_map_pres {f : α → α} {p : α → Bool} (hp : ∀ x, p (f x) = p x) (l : List α) :
    (l.map f).find? p = (l.find? p).map f := by
  induction l with
  | nil => rfl
  | cons a l ih =>
    simp only [List.map_cons, List.find?, hp a]
    cases hpa : p a <;> simp [ih]

theorem overwritePrefix_eq {orig repl : List String} (h : repl.length ≤ orig.length) :
    overwritePrefix orig repl = repl ++ orig.drop repl.length := by
  induction repl generalizing orig with
  | nil =>
    cases orig <;> simp [overwritePrefix]
  | cons r rs ih =>
    cases orig with
    | nil => simp at h
    | cons x xs =>
      simp only [overwritePrefix, List.cons_append, List.length_cons, List.drop_succ_cons]
      rw [ih (by simpa using h)]

theorem lookupBlob_putBlob (blobs : List (String × List Nat)) (k : String) (v : List Nat) :
    lookupBlob (putBlob blobs k v) k = some v := by
  simp [lookupBlob, putBlob, List.find?]


/-! ## Publish run lemmas -/

theorem publish_run_success (st : RegistryState) (req : PublishRequest) (sv : SemVer)
    (bytes : List Nat)
    (hns : req.ns ≠ "") (hname : req.name ≠ "") (hver : req.version ≠ "")
    (hv : parseVersion req.version = some sv)
    (hsize : bodyLen req ≤ maxBodyBytes)
    (ha : req.artifact = some bytes)
    (hfresh : findVersionRow st.versions (resolvedModule st req.ns req.name).id
      (normVersion sv) = none) :
    publish st req false =
      (Outcome.success (publishedResponse st req sv bytes),
       publishedState st req sv bytes) := by
  unfold publish publishedResponse publishedState
  rw [if_neg (by simp [hns, hname, hver])]
  simp only [hv]
  rw [if_neg (by omega : ¬ maxBodyBytes < bodyLen req)]
  simp only [ha, hfresh]
  rfl

theorem publish_run_conflict (st : RegistryState) (req : PublishRequest) (sv : SemVer)
    (bytes : List Nat) (o : Bool) (row : ModuleVersionRow)
    (hns : req.ns ≠ "") (hname : req.name ≠ "") (hver : req.version ≠ "")
    (hv : parseVersion req.version = some sv)
    (hsize : bodyLen req ≤ maxBodyBytes)
    (ha : req.artifact = some bytes)
    (hdup : findVersionRow st.versions (resolvedModule st req.ns req.name).id
      (normVersion sv) = some row) :
    publish st req o =
      (Outcome.failure 409 (conflictMsg req.ns req.name (normVersion sv)), st) := by
  unfold publish
  rw [if_neg (by simp [hns, hname, hver])]
  simp only [hv]
  rw [if_neg (by omega : ¬ maxBodyBytes < bodyLen req)]
  simp only [ha, hdup]

theorem publish_run_insertFails (st : RegistryState) (req : PublishRequest) (sv : SemVer)
    (bytes : List Nat)
    (hns : req.ns ≠ "") (hname : req.name ≠ "") (hver : req.version ≠ "")
    (hv : parseVersion req.version = some sv)
    (hsize : bodyLen req ≤ maxBodyBytes)
    (ha : req.artifact = some bytes)
    (hfresh : findVersionRow st.versions (resolvedModule st req.ns req.name).id
      (normVersion sv) = none) :
    publish st req true =
      (Outcome.failure 500 insertErrorMsg,
       { st with
          blobs := putBlob st.blobs
            (storageKeyFor (resolvedModule st req.ns req.name).id (normVersion sv)) bytes }) := by
  unfold publish
  rw [if_neg (by simp [hns, hname, hver])]
  simp only [hv]
  rw [if_neg (by omega : ¬ maxBodyBytes < bodyLen req)]
  simp only [ha, hfresh]
  rfl

theorem publish_run_invalid (st : RegistryState) (req : PublishRequest) (o : Bool)
    (hns : req.ns ≠ "") (hname : req.name ≠ "") (hver : req.version ≠ "")
    (hv : parseVersion req.version = none) :
    publish st req o = (Outcome.failure 400 invalidVersionMsg, st) := by
  unfold publish
  rw [if_neg (by simp [hns, hname, hver])]
  simp only [hv]

theorem publish_run_tooLarge (st : RegistryState) (req : PublishRequest) (o : Bool)
    (sv : SemVer)
    (hns : req.ns ≠ "") (hname : req.name ≠ "") (hver : req.version ≠ "")
    (hv : parseVersion req.version = some sv)
    (hsize : maxBodyBytes < bodyLen req) :
    publish st req o = (Outcome.failure 413 tooLargeMsg, st) := by
  unfold publish
  rw [if_neg (by simp [hns, hname, hver])]
  simp only [hv]
  rw [if_pos hsize]

/-- Inversion: everything a successful publish implies. -/
theorem publish_success_inv {st : RegistryState} {req : PublishRequest} {o : Bool}
    {res : PublishResponse} {st2 : RegistryState}
    (h : publish st req o = (Outcome.success res, st2)) :
    ∃ sv bytes,
      parseVersion req.version = some sv ∧
      req.artifact = some bytes ∧
      req.ns ≠ "" ∧ req.name ≠ "" ∧ req.version ≠ "" ∧
      bodyLen req ≤ maxBodyBytes ∧ o = false ∧
      findVersionRow st.versions (resolvedModule st req.ns req.name).id
        (normVersion sv) = none ∧
      res = publishedResponse st req sv bytes ∧
      st2 = publishedState st req sv bytes := by
  unfold publish at h
  split at h
  · simp at h
  next hfields =>
    push_neg at hfields
    split at h
    · simp at h
    next sv hsv =>
      split at h
      · simp at h
      next hsize =>
        split at h
        · simp at h
        next bytes ha =>
          split at h
          next ho =>
            simp only [] at h
            split at h <;> simp at h
          next ho =>
            simp only [] at h
            split at h
            · simp at h
            next hfresh =>
              refine ⟨sv, bytes, hsv, ha, hfields.1, hfields.2.1, hfields.2.2, by omega,
                by simpa using ho, hfresh, ?_, ?_⟩
              · injection h with h1 h2
                injection h1 with h3
                exact h3.symm
              · injection h with h1 h2
                exact h2.symm


/-! ## Fetch-after-publish lemmas -/

theorem normVersion_toList (sv : SemVer) :
    (normVersion sv).toList = 'v' :: (vString sv).toList := rfl

theorem normVersion_ne_empty (sv : SemVer) : normVersion sv ≠ "" := by
  intro h
  exact List.noConfusion ((normVersion_toList sv).symm.trans (congrArg String.toList h))

theorem resolvedModule_fields (st : RegistryState) (ns name : String) :
    (resolvedModule st ns name).ns = ns ∧ (resolvedModule st ns name).name = name := by
  unfold resolvedModule findModule
  cases hfm : st.modules.find? (fun m => m.ns == ns && m.name == name) with
  | none => exact ⟨rfl, rfl⟩
  | some m0 =>
    have := List.find?_some hfm
    simp only [Bool.and_eq_true, beq_iff_eq] at this
    exact this

theorem findModule_published (st : RegistryState) (req : PublishRequest) (sv : SemVer)
    (bytes : List Nat) :
    ∃ m2 : ModuleRow,
      findModule (publishedState st req sv bytes).modules req.ns req.name = some m2 ∧
      m2.id = (resolvedModule st req.ns req.name).id := by
  cases hfm : findModule st.modules req.ns req.name with
  | none =>
    refine ⟨resolvedModule st req.ns req.name, ?_, rfl⟩
    show findModule
      (match findModule st.modules req.ns req.name with
        | some _ => bumpUpdated st.modules (resolvedModule st req.ns req.name).id st.clock
        | none => st.modules ++ [resolvedModule st req.ns req.name]) req.ns req.name = _
    rw [hfm]
    unfold findModule at hfm ⊢
    rw [find?_append_none hfm]
    obtain ⟨h1, h2⟩ := resolvedModule_fields st req.ns req.name
    simp [List.find?, h1, h2]
  | some m0 =>
    have hres : resolvedModule st req.ns req.name = m0 := by
      unfold resolvedModule
      rw [hfm]
    refine ⟨⟨m0.id, m0.ns, m0.name, m0.createdAt, st.clock⟩, ?_, by rw [hres]⟩
    show findModule
      (match findModule st.modules req.ns req.name with
        | some _ => bumpUpdated st.modules (resolvedModule st req.ns req.name).id st.clock
        | none => st.modules ++ [resolvedModule st req.ns req.name]) req.ns req.name = _
    rw [hfm, hres]
    unfold findModule at hfm ⊢
    unfold bumpUpdated
    rw [find?_map_pres (by intro x; split <;> rfl), hfm]
    simp

theorem findVersionRow_published (st : RegistryState) (req : PublishRequest) (sv : SemVer)
    (bytes : List Nat)
    (hfresh : findVersionRow st.versions (resolvedModule st req.ns req.name).id
      (normVersion sv) = none) :
    findVersionRow (publishedState st req sv bytes).versions
        (resolvedModule st req.ns req.name).id (normVersion sv) =
      some ⟨(resolvedModule st req.ns req.name).id, normVersion sv, sha256Hex bytes,
        storageKeyFor (resolvedModule st req.ns req.name).id (normVersion sv), st.clock⟩ := by
  show findVersionRow
      (st.versions ++ [⟨(resolvedModule st req.ns req.name).id, normVersion sv,
        sha256Hex bytes,
        storageKeyFor (resolvedModule st req.ns req.name).id (normVersion sv), st.clock⟩])
      (resolvedModule st req.ns req.name).id (normVersion sv) = _
  unfold findVersionRow at hfresh ⊢
  rw [find?_append_none hfresh]
  simp [List.find?]

theorem fetch_after_publish (st : RegistryState) (req : PublishRequest) (sv : SemVer)
    (bytes : List Nat)
    (hns : req.ns ≠ "") (hname : req.name ≠ "")
    (hfresh : findVersionRow st.versions (resolvedModule st req.ns req.name).id
      (normVersion sv) = none) :
    fetchArtifact (publishedState st req sv bytes) req.ns req.name (normVersion sv) =
      Except.ok bytes := by
  obtain ⟨m2, hm2, hid⟩ := findModule_published st req sv bytes
  unfold fetchArtifact
  rw [if_neg (by simp [hns, hname, normVersion_ne_empty sv])]
  rw [normVersion_toList]
  simp only [hm2, hid, findVersionRow_published st req sv bytes hfresh]
  show (match lookupBlob (publishedState st req sv bytes).blobs
      (storageKeyFor (resolvedModule st req.ns req.name).id (normVersion sv)) with
    | none => Except.error (404, artifactNotFoundMsg)
    | some bytes => Except.ok bytes) = _
  show (match lookupBlob
      (putBlob st.blobs (storageKeyFor (resolvedModule st req.ns req.name).id
        (normVersion sv)) bytes)
      (storageKeyFor (resolvedModule st req.ns req.name).id (normVersion sv)) with
    | none => Except.error (404, artifactNotFoundMsg)
    | some bytes => Except.ok bytes) = _
  rw [lookupBlob_putBlob]


/-! ## Listing lemmas -/

theorem latestCreated_spec {rows : List ModuleVersionRow} (hne : rows ≠ []) :
    ∃ row, row ∈ rows ∧ latestCreated rows = row.version ∧
      ∀ r ∈ rows, r.createdAt ≤ row.createdAt := by
  have hperm := insertionSort_perm (fun a b => decide (b.createdAt ≤ a.createdAt)) rows
  cases hs : orderByCreatedDesc rows with
  | nil =>
    unfold orderByCreatedDesc at hs
    rw [hs] at hperm
    exact absurd hperm.symm.eq_nil hne
  | cons hd t =>
    unfold orderByCreatedDesc at hs
    have hchain := chain_insertionSort
      (fun a b => decide (b.createdAt ≤ a.createdAt))
      (fun a b => decide (b.createdAt ≤ a.createdAt))
      (fun a b hab => hab)
      (by
        intro a b hab
        simp only [decide_eq_false_iff_not] at hab
        simp only [decide_eq_true_eq]
        omega)
      rows
    rw [hs] at hchain hperm
    refine ⟨hd, hperm.subset (List.mem_cons_self hd t), ?_, ?_⟩
    · unfold latestCreated orderByCreatedDesc
      rw [hs]
    · intro r hr
      rcases List.mem_cons.mp (hperm.symm.subset hr) with hrh | hrt
      · rw [hrh]
      · have := chain_head_all
          (fun a b => decide (b.createdAt ≤ a.createdAt))
          (by
            intro a b c hab hbc
            simp only [decide_eq_true_eq] at hab hbc ⊢
            omega)
          hchain r hrt
        simpa using this

theorem listModules_mem (st : RegistryState) (m : ModuleRow) (hm : m ∈ st.modules) :
    (⟨m.ns, m.name, latestCreated (rowsFor st.versions m.id)⟩ : ModuleInfo) ∈
      listModules st := by
  unfold listModules orderByNsName
  exact List.mem_map_of_mem _ ((insertionSort_perm _ st.modules).mem_iff.mpr hm)

theorem filterMap_length_all {vs : List String}
    (h : ∀ s ∈ vs, (parseVersion s).isSome = true) :
    (vs.filterMap parseVersion).length = vs.length := by
  induction vs with
  | nil => rfl
  | cons a l ih =>
    have ha := h a (List.mem_cons_self a l)
    cases hp : parseVersion a with
    | none =>
      rw [hp] at ha
      exact absurd ha (by simp)
    | some v =>
      simp [List.filterMap_cons, hp, ih (fun s hs => h s (List.mem_cons_of_mem a hs))]

/-- The exact shape of `sortVersionsDesc`: the sorted canonical forms of
the parseable entries occupy the first positions, and the slice keeps
its prior contents past that point. -/
theorem sortVersionsDesc_eq (vs : List String) :
    sortVersionsDesc vs =
      (insertionSort versionGeB (vs.filterMap parseVersion)).map normVersion ++
        vs.drop (vs.filterMap parseVersion).length := by
  have hlen : ((insertionSort versionGeB (vs.filterMap parseVersion)).map normVersion).length =
      (vs.filterMap parseVersion).length := by
    rw [List.length_map, (insertionSort_perm _ _).length_eq]
  unfold sortVersionsDesc
  rw [overwritePrefix_eq (by rw [hlen]; exact List.length_filterMap_le _ _), hlen]

theorem sortVersionsDesc_all_parse {vs : List String}
    (h : ∀ s ∈ vs, (parseVersion s).isSome = true) :
    sortVersionsDesc vs =
      (insertionSort versionGeB (vs.filterMap parseVersion)).map normVersion := by
  rw [sortVersionsDesc_eq, filterMap_length_all h, List.drop_length, List.append_nil]

/-- The sorted collection is a descending chain: no element is strictly
above its predecessor in semantic-version precedence. -/
theorem sortVersions_chain (l : List SemVer) :
    List.Chain' (fun x y => compareVersion y x ≠ Ordering.gt)
      (insertionSort versionGeB l) := by
  have := chain_insertionSort
    versionGeB
    (fun x y => decide (compareVersion y x ≠ Ordering.gt))
    (by
      intro a b hab
      simp only [versionGeB, decide_eq_true_eq] at hab ⊢
      intro hgt
      exact hab (compareVersion_gt hgt))
    (by
      intro a b hab
      simp only [versionGeB, decide_eq_false_iff_not, not_not] at hab
      simp only [decide_eq_true_eq]
      intro hgt
      rw [hab] at hgt
      exact Ordering.noConfusion hgt)
    l
  refine List.Chain'.imp ?_ this
  intro a b hab
  simpa using hab


/-! ## Claim theorems -/

/-- C1: whenever Publish succeeds with artifact bytes B, the reported
digest equals "sha256:" plus the SHA-256 of B, the committed metadata
row carries that digest and its storage key holds exactly B in the blob
store, and a subsequent Fetch at the same (namespace, name, version)
returns a byte stream identical to B. -/
theorem c1_publish_digest_roundtrip (st : RegistryState) (req : PublishRequest) (o : Bool)
    (bytes : List Nat) (res : PublishResponse) (st2 : RegistryState)
    (ha : req.artifact = some bytes)
    (hrun : publish st req o = (Outcome.success res, st2)) :
    res.artifactDigest = "sha256:" ++ sha256Hex bytes ∧
    (∃ row, row ∈ st2.versions ∧ row.version = res.version ∧
      row.artifactDigest = sha256Hex bytes ∧
      lookupBlob st2.blobs row.artifactStorageKey = some bytes) ∧
    fetchArtifact st2 req.ns req.name res.version = Except.ok bytes := by
  obtain ⟨sv, bytes2, hsv, ha2, hns, hname, hver, hsize, ho, hfresh, hres, hst2⟩ :=
    publish_success_inv hrun
  have hbb : bytes2 = bytes := by
    rw [ha] at ha2
    exact (Option.some.inj ha2).symm
  subst hbb
  subst hres
  subst hst2
  refine ⟨rfl, ⟨⟨(resolvedModule st req.ns req.name).id, normVersion sv, sha256Hex bytes2,
    storageKeyFor (resolvedModule st req.ns req.name).id (normVersion sv), st.clock⟩,
    ?_, rfl, rfl, ?_⟩, ?_⟩
  · simp [publishedState]
  · exact lookupBlob_putBlob st.blobs _ bytes2
  · exact fetch_after_publish st req sv bytes2 hns hname hfresh

/-- Witness for C1: a concrete publish of the bytes of "abc" into the
empty registry. -/
theorem c1_witness :
    (publishedResponse emptyState reqAbc ⟨1, 0, 0, [], []⟩ [97, 98, 99]).artifactDigest =
      "sha256:" ++ sha256Hex [97, 98, 99] ∧
    (∃ row, row ∈ (publishedState emptyState reqAbc ⟨1, 0, 0, [], []⟩ [97, 98, 99]).versions ∧
      row.version = (publishedResponse emptyState reqAbc ⟨1, 0, 0, [], []⟩ [97, 98, 99]).version ∧
      row.artifactDigest = sha256Hex [97, 98, 99] ∧
      lookupBlob (publishedState emptyState reqAbc ⟨1, 0, 0, [], []⟩ [97, 98, 99]).blobs
        row.artifactStorageKey = some [97, 98, 99]) ∧
    fetchArtifact (publishedState emptyState reqAbc ⟨1, 0, 0, [], []⟩ [97, 98, 99])
      "acme" "protos"
      (publishedResponse emptyState reqAbc ⟨1, 0, 0, [], []⟩ [97, 98, 99]).version =
      Except.ok [97, 98, 99] :=
  c1_publish_digest_roundtrip emptyState reqAbc false [97, 98, 99]
    (publishedResponse emptyState reqAbc ⟨1, 0, 0, [], []⟩ [97, 98, 99])
    (publishedState emptyState reqAbc ⟨1, 0, 0, [], []⟩ [97, 98, 99]) rfl rfl

/-- C2: at previously-unused coordinates with a syntactically valid
version, the first publish succeeds; a second publish at the identical
coordinates fails with 409 VersionConflict and leaves the entire state
(including the stored artifact bytes) unchanged. -/
theorem c2_publish_once_conflict_twice (st : RegistryState) (req : PublishRequest)
    (sv : SemVer) (bytes : List Nat) (o2 : Bool)
    (hns : req.ns ≠ "") (hname : req.name ≠ "") (hver : req.version ≠ "")
    (hv : parseVersion req.version = some sv)
    (hsize : bodyLen req ≤ maxBodyBytes)
    (ha : req.artifact = some bytes)
    (hfresh : findVersionRow st.versions (resolvedModule st req.ns req.name).id
      (normVersion sv) = none) :
    publish st req false =
      (Outcome.success (publishedResponse st req sv bytes), publishedState st req sv bytes) ∧
    publish (publishedState st req sv bytes) req o2 =
      (Outcome.failure 409 (conflictMsg req.ns req.name (normVersion sv)),
       publishedState st req sv bytes) := by
  refine ⟨publish_run_success st req sv bytes hns hname hver hv hsize ha hfresh, ?_⟩
  obtain ⟨m2, hm2, hid⟩ := findModule_published st req sv bytes
  have hres2 : resolvedModule (publishedState st req sv bytes) req.ns req.name = m2 := by
    unfold resolvedModule
    rw [hm2]
  refine publish_run_conflict (publishedState st req sv bytes) req sv bytes o2
    ⟨(resolvedModule st req.ns req.name).id, normVersion sv, sha256Hex bytes,
      storageKeyFor (resolvedModule st req.ns req.name).id (normVersion sv), st.clock⟩
    hns hname hver hv hsize ha ?_
  rw [hres2, hid]
  exact findVersionRow_published st req sv bytes hfresh

/-- Witness for C2: first publish of "abc" succeeds, the identical
second publish is a 409 conflict and the state is untouched. -/
theorem c2_witness :
    publish emptyState reqAbc false =
      (Outcome.success (publishedResponse emptyState reqAbc ⟨1, 0, 0, [], []⟩ [97, 98, 99]),
       publishedState emptyState reqAbc ⟨1, 0, 0, [], []⟩ [97, 98, 99]) ∧
    publish (publishedState emptyState reqAbc ⟨1, 0, 0, [], []⟩ [97, 98, 99]) reqAbc false =
      (Outcome.failure 409 (conflictMsg "acme" "protos" "v1.0.0"),
       publishedState emptyState reqAbc ⟨1, 0, 0, [], []⟩ [97, 98, 99]) :=
  c2_publish_once_conflict_twice emptyState reqAbc ⟨1, 0, 0, [], []⟩ [97, 98, 99] false
    (by decide) (by decide) (by decide) rfl (by decide) rfl rfl

/-- C3 counterexample: when the ModuleVersion insert fails after the
blob upload, the handler reports 500 "Database error saving module
version" — not VersionConflict — and the just-written blob is still in
the blob store afterwards (no compensating delete is issued). -/
theorem c3_counterexample :
    (publish emptyState reqAbc true).1 = Outcome.failure 500 insertErrorMsg ∧
    (publish emptyState reqAbc true).1 ≠
      Outcome.failure 409 (conflictMsg "acme" "protos" "v1.0.0") ∧
    lookupBlob (publish emptyState reqAbc true).2.blobs "modules/0/v1.0.0/protos.zip" =
      some [97, 98, 99] := by
  exact ⟨rfl, by decide, rfl⟩

/-- C3 amended: when the insert fails after the blob upload, Publish
rolls back the metadata transaction (module and version rows
unchanged), reports 500 with the metadata-error message, and performs
no compensating delete: the just-written blob remains in the store. -/
theorem c3_insert_failure_no_compensation (st : RegistryState) (req : PublishRequest)
    (sv : SemVer) (bytes : List Nat)
    (hns : req.ns ≠ "") (hname : req.name ≠ "") (hver : req.version ≠ "")
    (hv : parseVersion req.version = some sv)
    (hsize : bodyLen req ≤ maxBodyBytes)
    (ha : req.artifact = some bytes)
    (hfresh : findVersionRow st.versions (resolvedModule st req.ns req.name).id
      (normVersion sv) = none) :
    publish st req true =
      (Outcome.failure 500 insertErrorMsg,
       { st with
          blobs := putBlob st.blobs
            (storageKeyFor (resolvedModule st req.ns req.name).id (normVersion sv)) bytes }) ∧
    lookupBlob (publish st req true).2.blobs
      (storageKeyFor (resolvedModule st req.ns req.name).id (normVersion sv)) = some bytes ∧
    (publish st req true).2.versions = st.versions ∧
    (publish st req true).2.modules = st.modules := by
  have h := publish_run_insertFails st req sv bytes hns hname hver hv hsize ha hfresh
  refine ⟨h, ?_, ?_, ?_⟩ <;> rw [h] <;>
    first
      | rfl
      | exact lookupBlob_putBlob _ _ _

/-- Witness for the amended C3 at the concrete "abc" publish. -/
theorem c3_witness :
    publish emptyState reqAbc true =
      (Outcome.failure 500 insertErrorMsg,
       { emptyState with
          blobs := putBlob emptyState.blobs
            (storageKeyFor (resolvedModule emptyState reqAbc.ns reqAbc.name).id
              (normVersion ⟨1, 0, 0, [], []⟩)) [97, 98, 99] }) ∧
    lookupBlob (publish emptyState reqAbc true).2.blobs
      (storageKeyFor (resolvedModule emptyState reqAbc.ns reqAbc.name).id
        (normVersion ⟨1, 0, 0, [], []⟩)) = some [97, 98, 99] ∧
    (publish emptyState reqAbc true).2.versions = emptyState.versions ∧
    (publish emptyState reqAbc true).2.modules = emptyState.modules :=
  c3_insert_failure_no_compensation emptyState reqAbc ⟨1, 0, 0, [], []⟩ [97, 98, 99]
    (by decide) (by decide) (by decide) rfl (by decide) rfl rfl

/-- C4 counterexample: a string that fails semantic-version parsing is
NOT dropped from the sorted result — the returned list still contains
it (the Go helper never shrinks the slice it sorts in place). -/
theorem c4_counterexample :
    parseVersion "not-a-version" = none ∧
    sortVersionsDesc ["v1.0.0", "not-a-version"] = ["v1.0.0", "not-a-version"] ∧
    "not-a-version" ∈ sortVersionsDesc ["v1.0.0", "not-a-version"] := by
  exact ⟨rfl, rfl, by decide⟩

/-- C4 amended: unparseable entries are dropped only from the collection
that gets sorted; the returned list keeps the original slice length,
with the sorted canonical versions written over the prefix and every
position past the number of parseable entries left with its prior
contents.  The listing itself never fails on malformed entries: for any
existing module it returns Ok with exactly this overwrite result. -/
theorem c4_malformed_entries_not_dropped :
    (∀ vs : List String,
      sortVersionsDesc vs =
        (insertionSort versionGeB (vs.filterMap parseVersion)).map normVersion ++
          vs.drop (vs.filterMap parseVersion).length) ∧
    (∀ (st : RegistryState) (ns name : String) (m : ModuleRow),
      ns ≠ "" → name ≠ "" →
      findModule st.modules ns name = some m →
      listVersions st ns name =
        Except.ok (sortVersionsDesc ((orderByCreatedDesc (rowsFor st.versions m.id)).map
          (fun r => r.version)))) := by
  refine ⟨sortVersionsDesc_eq, ?_⟩
  intro st ns name m hns hname hm
  unfold listVersions
  rw [if_neg (by simp [hns, hname])]
  rw [hm]

/-- Witness for the amended C4: a malformed entry beyond the parseable
prefix survives in the output, and listing still succeeds. -/
theorem c4_witness :
    sortVersionsDesc ["v1.0.0", "not-a-version"] =
      (insertionSort versionGeB (["v1.0.0", "not-a-version"].filterMap parseVersion)).map
          normVersion ++
        ["v1.0.0", "not-a-version"].drop
          (["v1.0.0", "not-a-version"].filterMap parseVersion).length ∧
    listVersions listState3 "acme" "protos" =
      Except.ok (sortVersionsDesc ((orderByCreatedDesc
        (rowsFor listState3.versions 0)).map (fun r => r.version))) :=
  ⟨c4_malformed_entries_not_dropped.1 ["v1.0.0", "not-a-version"],
   c4_malformed_entries_not_dropped.2 listState3 "acme" "protos"
     ⟨0, "acme", "protos", 0, 2⟩ (by decide) (by decide) (by decide)⟩

/-- C5 counterexample: the listing sort does not order every valid
version list by standard semantic-version precedence.  The prerelease
identifier "-1" is alphanumeric under the standard rules (it contains a
hyphen), so "v1.0.0--1" ranks strictly above "v1.0.0-0"; but
`strconv.ParseInt` accepts the sign, so the library compares -1 < 0
numerically and the code returns the list with "v1.0.0-0" first — the
returned order places an element strictly below its successor in
standard precedence. -/
theorem c5_counterexample :
    sortVersionsDesc ["v1.0.0-0", "v1.0.0--1"] = ["v1.0.0-0", "v1.0.0--1"] ∧
    parseVersion "v1.0.0-0" = some ⟨1, 0, 0, ["0"], []⟩ ∧
    parseVersion "v1.0.0--1" = some ⟨1, 0, 0, ["-1"], []⟩ ∧
    specCompareVersion ⟨1, 0, 0, ["-1"], []⟩ ⟨1, 0, 0, ["0"], []⟩ = Ordering.gt ∧
    ¬ List.Chain' (fun x y => specCompareVersion y x ≠ Ordering.gt)
      [(⟨1, 0, 0, ["0"], []⟩ : SemVer), ⟨1, 0, 0, ["-1"], []⟩] := by
  exact ⟨rfl, rfl, rfl, rfl, fun hc => (List.chain'_cons.mp hc).1 rfl⟩

/-- C5 amended: over any all-parseable version list the listing sort
returns the canonical forms of a permutation of the inputs arranged in
a descending chain under the precedence the Masterminds library
actually implements (major, minor, patch numerically; the comparison
never looks at build metadata; a prerelease sorts strictly below its
corresponding release) — which agrees with standard semantic-version
precedence except that sign-prefixed prerelease identifiers such as
"-1" are compared as negative int64 numerics instead of as
alphanumerics; and the worked example of the spec holds end to end:
publishing v1.0.0, v2.0.0, v1.5.0 in that order and then listing
yields v2.0.0, v1.5.0, v1.0.0. -/
theorem c5_versions_sorted_desc :
    (∀ vs : List String, (∀ s ∈ vs, (parseVersion s).isSome = true) →
      sortVersionsDesc vs =
        (insertionSort versionGeB (vs.filterMap parseVersion)).map normVersion ∧
      List.Perm (insertionSort versionGeB (vs.filterMap parseVersion))
        (vs.filterMap parseVersion) ∧
      List.Chain' (fun x y => compareVersion y x ≠ Ordering.gt)
        (insertionSort versionGeB (vs.filterMap parseVersion))) ∧
    (∀ v w : SemVer, ∀ m1 m2 : List String,
      compareVersion ⟨v.major, v.minor, v.patch, v.pre, m1⟩
        ⟨w.major, w.minor, w.patch, w.pre, m2⟩ = compareVersion v w) ∧
    (∀ v : SemVer, v.pre ≠ [] →
      compareVersion v ⟨v.major, v.minor, v.patch, [], []⟩ = Ordering.lt) ∧
    listVersions listState3 "acme" "protos" =
      Except.ok ["v2.0.0", "v1.5.0", "v1.0.0"] := by
  refine ⟨?_, ?_, ?_, rfl⟩
  · intro vs h
    exact ⟨sortVersionsDesc_all_parse h, insertionSort_perm _ _, sortVersions_chain _⟩
  · intro v w m1 m2
    rfl
  · intro v hpre
    unfold compareVersion
    simp only [cmpNat_self]
    revert hpre
    rcases v.pre with _ | ⟨s, ss⟩ <;> intro hpre
    · exact absurd rfl hpre
    · rfl

/-- Witness for C5 at the worked example of the spec and a concrete
prerelease/release pair. -/
theorem c5_witness :
    (sortVersionsDesc ["v1.0.0", "v2.0.0", "v1.5.0"] =
        (insertionSort versionGeB
          (["v1.0.0", "v2.0.0", "v1.5.0"].filterMap parseVersion)).map normVersion ∧
      List.Perm (insertionSort versionGeB
          (["v1.0.0", "v2.0.0", "v1.5.0"].filterMap parseVersion))
        (["v1.0.0", "v2.0.0", "v1.5.0"].filterMap parseVersion) ∧
      List.Chain' (fun x y => compareVersion y x ≠ Ordering.gt)
        (insertionSort versionGeB (["v1.0.0", "v2.0.0", "v1.5.0"].filterMap parseVersion))) ∧
    compareVersion ⟨1, 0, 0, ["alpha"], []⟩ ⟨1, 0, 0, [], []⟩ = Ordering.lt :=
  ⟨c5_versions_sorted_desc.1 ["v1.0.0", "v2.0.0", "v1.5.0"] (by decide),
   c5_versions_sorted_desc.2.2.1 ⟨1, 0, 0, ["alpha"], []⟩ (by decide)⟩

/-- C6: the module listing reports, for each module with at least one
version, the version string of the row with the greatest creation
stamp — publish order, not semantic-version precedence.  In particular
publishing v2.0.0 before v0.1.0 makes the listing report v0.1.0 as the
latest version even though v2.0.0 is the greater semantic version. -/
theorem c6_latest_is_most_recent :
    (∀ (st : RegistryState) (m : ModuleRow), m ∈ st.modules →
      rowsFor st.versions m.id ≠ [] →
      ∃ row, row ∈ rowsFor st.versions m.id ∧
        (⟨m.ns, m.name, row.version⟩ : ModuleInfo) ∈ listModules st ∧
        ∀ r ∈ rowsFor st.versions m.id, r.createdAt ≤ row.createdAt) ∧
    listModules creationOrderState = [⟨"acme", "protos", "v0.1.0"⟩] ∧
    compareVersion ⟨2, 0, 0, [], []⟩ ⟨0, 1, 0, [], []⟩ = Ordering.gt := by
  refine ⟨?_, rfl, rfl⟩
  intro st m hm hne
  obtain ⟨row, hrow, hlat, hmax⟩ := latestCreated_spec hne
  refine ⟨row, hrow, ?_, hmax⟩
  have hmem := listModules_mem st m hm
  rw [hlat] at hmem
  exact hmem

/-- Witness for C6 on the concrete out-of-order publishes. -/
theorem c6_witness :
    ∃ row, row ∈ rowsFor creationOrderState.versions 0 ∧
      (⟨"acme", "protos", row.version⟩ : ModuleInfo) ∈ listModules creationOrderState ∧
      ∀ r ∈ rowsFor creationOrderState.versions 0, r.createdAt ≤ row.createdAt :=
  c6_latest_is_most_recent.1 creationOrderState ⟨0, "acme", "protos", 0, 1⟩
    (by decide) (by decide)

/-- C7: the code accepts an object key with a leading `..` traversal
segment: `getFullPath` returns a path outside the base directory and
`UploadFile` creates the file there, contradicting the claimed
`InvalidKey` rejection (the absolute-path half of the validation does
hold, shown last). -/
theorem c7_traversal_bug :
    getFullPath "/data" "../evil" = Except.ok "/evil" ∧
    uploadFileLocal "/data" "../evil" [1, 2] ⟨[]⟩ = Except.ok ⟨[("/evil", [1, 2])]⟩ ∧
    underBase "/data" "/evil" = false ∧
    getFullPath "/data" "/abs" = Except.error (absoluteObjectNameMsg "/abs") := by
  exact ⟨rfl, rfl, rfl, rfl⟩

/-- C8 counterexample: the storage key written by a successful publish
ends in `protos.zip`, not `artifact`. -/
theorem c8_counterexample :
    ((publish emptyState reqAbc false).2.versions.map
      (fun r => r.artifactStorageKey)) = ["modules/0/v1.0.0/protos.zip"] ∧
    ("modules/0/v1.0.0/protos.zip" : String) ≠ "modules/0/v1.0.0/artifact" := by
  exact ⟨rfl, by decide⟩

/-- C8 amended: every successful publish stores its blob at the key
deterministically derived from the module id and the normalized version
by `storageKeyFor`, i.e. `modules/<module-id>/<version>/protos.zip`. -/
theorem c8_storage_key_form (st : RegistryState) (req : PublishRequest) (o : Bool)
    (res : PublishResponse) (st2 : RegistryState)
    (hrun : publish st req o = (Outcome.success res, st2)) :
    ∃ row, row ∈ st2.versions ∧ row.version = res.version ∧
      row.artifactStorageKey = storageKeyFor row.moduleId res.version := by
  obtain ⟨sv, bytes, hsv, ha, hns, hname, hver, hsize, ho, hfresh, hres, hst2⟩ :=
    publish_success_inv hrun
  subst hres
  subst hst2
  refine ⟨⟨(resolvedModule st req.ns req.name).id, normVersion sv, sha256Hex bytes,
    storageKeyFor (resolvedModule st req.ns req.name).id (normVersion sv), st.clock⟩,
    ?_, rfl, rfl⟩
  simp [publishedState]

/-- Witness for the amended C8 at the concrete "abc" publish. -/
theorem c8_witness :
    ∃ row, row ∈ (publishedState emptyState reqAbc ⟨1, 0, 0, [], []⟩ [97, 98, 99]).versions ∧
      row.version = (publishedResponse emptyState reqAbc ⟨1, 0, 0, [], []⟩ [97, 98, 99]).version ∧
      row.artifactStorageKey = storageKeyFor row.moduleId
        (publishedResponse emptyState reqAbc ⟨1, 0, 0, [], []⟩ [97, 98, 99]).version :=
  c8_storage_key_form emptyState reqAbc false
    (publishedResponse emptyState reqAbc ⟨1, 0, 0, [], []⟩ [97, 98, 99])
    (publishedState emptyState reqAbc ⟨1, 0, 0, [], []⟩ [97, 98, 99]) rfl

/-- C9: a version string that fails semantic-version parsing makes
Publish fail with the 400 invalid-version error while both stores are
left exactly as they were; on parse success the version is normalized
to the canonical form with a leading "v". -/
theorem c9_invalid_version_rejected :
    (∀ (st : RegistryState) (req : PublishRequest) (o : Bool),
      req.ns ≠ "" → req.name ≠ "" → req.version ≠ "" →
      parseVersion req.version = none →
      publish st req o = (Outcome.failure 400 invalidVersionMsg, st)) ∧
    (∀ (st : RegistryState) (req : PublishRequest) (o : Bool) (sv : SemVer)
        (res : PublishResponse) (st2 : RegistryState),
      parseVersion req.version = some sv →
      publish st req o = (Outcome.success res, st2) →
      res.version = "v" ++ vString sv) := by
  refine ⟨?_, ?_⟩
  · intro st req o hns hname hver hv
    exact publish_run_invalid st req o hns hname hver hv
  · intro st req o sv res st2 hv hrun
    obtain ⟨sv2, bytes, hsv2, _, _, _, _, _, _, _, hres, _⟩ := publish_success_inv hrun
    rw [hres]
    have hsv : sv2 = sv := by
      rw [hv] at hsv2
      exact (Option.some.inj hsv2).symm
    rw [hsv]
    rfl

/-- Witness for C9: a malformed version is rejected with state
untouched, and a parsed version comes back "v"-normalized. -/
theorem c9_witness :
    publish emptyState ⟨"acme", "protos", "not-a-version", some [1], 0⟩ false =
      (Outcome.failure 400 invalidVersionMsg, emptyState) ∧
    (publishedResponse emptyState reqAbc ⟨1, 0, 0, [], []⟩ [97, 98, 99]).version =
      "v" ++ vString ⟨1, 0, 0, [], []⟩ :=
  ⟨c9_invalid_version_rejected.1 emptyState ⟨"acme", "protos", "not-a-version", some [1], 0⟩
      false (by decide) (by decide) (by decide) rfl,
   c9_invalid_version_rejected.2 emptyState reqAbc false ⟨1, 0, 0, [], []⟩
      (publishedResponse emptyState reqAbc ⟨1, 0, 0, [], []⟩ [97, 98, 99])
      (publishedState emptyState reqAbc ⟨1, 0, 0, [], []⟩ [97, 98, 99]) rfl rfl⟩

/-- C10: the publish handler caps the request body at 32 MiB
(`http.MaxBytesReader`); any otherwise well-formed request whose
artifact alone exceeds that limit fails with 413 before either store is
touched. -/
theorem c10_body_limit (st : RegistryState) (req : PublishRequest) (o : Bool) (sv : SemVer)
    (hns : req.ns ≠ "") (hname : req.name ≠ "") (hver : req.version ≠ "")
    (hv : parseVersion req.version = some sv)
    (hbig : maxBodyBytes < artifactLen req) :
    publish st req o = (Outcome.failure 413 tooLargeMsg, st) :=
  publish_run_tooLarge st req o sv hns hname hver hv (by unfold bodyLen; omega)

/-- Witness for C10: a 32 MiB + 1 byte artifact is rejected with 413 and
no state change. -/
theorem c10_witness :
    publish emptyState reqBig false = (Outcome.failure 413 tooLargeMsg, emptyState) :=
  c10_body_limit emptyState reqBig false ⟨1, 0, 0, [], []⟩ (by decide) (by decide)
    (by decide) rfl
    (by simp only [reqBig, artifactLen, maxBodyBytes, List.length_replicate]; omega)


end SProto
